import Mathlib

/-!
Verification of `rindexer` (`src/rindexer_core/src/indexer/fetch_logs.rs`)
against its natural-language specification.

The file shallowly embeds the three items of that module:

* `retry_with_block_range` — the Block-Range Negotiator.  Its regex
  `this block range should work: \[(0x[0-9a-fA-F]+),\s*(0x[0-9a-fA-F]+)]`
  is modelled by a character-level scanner (`matchAt` / `findMatch`).
  Because every repetition in that regex is followed by a character that
  cannot extend it (a hex run is followed by `,` or `]`, the whitespace run
  by `0`), the greedy, maximal-munch scanner coincides with the regex
  engine's leftmost-match semantics.  `BlockNumber::from_str` on a
  `0x`-prefixed capture is a base-16 parse into a 64-bit word that fails
  (and, through `.unwrap()`, panics) exactly when the value does not fit
  in 64 bits; this is modelled by the `RetryResult.panicked` outcome.

* `fetch_logs` / `inner_fetch_logs` — the Adaptive Log Fetcher.  The remote
  provider is modelled as an oracle indexed by the call number; recursion is
  made total by a fuel parameter, with `FetchResult.outOfFuel` marking a
  computation that is still retrying.  The list of filters handed to
  `provider.get_logs` is returned alongside the result so that dispatch-time
  invariants can be stated.

* `fetch_logs_stream` — the Live Log Streamer.  The body of the spawned task
  is `stream_iteration` (one pass through the `loop`), iterated by the fueled
  `stream_loop`.  Each iteration reports what was sent on the channel, how
  long it slept, the filter it actually dispatched, and whether the task
  `break`s or panics on an `unwrap`.  The consumer channel is modelled by a
  boolean `consumer_open` (a send on a closed channel fails and `break`s).

Machine integers (`U64`) are modelled as `Nat`; the only place the 64-bit
bound is observable in this module is the negotiator's parse, where it is
modelled explicitly.
-/

namespace Rindexer

/-- ASCII hex digit, as in the regex character class `[0-9a-fA-F]`. -/
def isHexChar (c : Char) : Bool :=
  c.isDigit || ('a' ≤ c && c ≤ 'f') || ('A' ≤ c && c ≤ 'F')

/-- Unicode `White_Space`, the class matched by `\s` in the Rust `regex`
crate (which is Unicode-aware by default). -/
def isRegexSpace (c : Char) : Bool :=
  c = ' ' || c = '\t' || c = '\n' || c = '\r' ||
  c.toNat = 11 || c.toNat = 12 || c.toNat = 133 || c.toNat = 160 ||
  c.toNat = 5760 || (8192 ≤ c.toNat && c.toNat ≤ 8202) ||
  c.toNat = 8232 || c.toNat = 8233 || c.toNat = 8239 || c.toNat = 8287 ||
  c.toNat = 12288

/-- Strip a literal prefix; `some rest` when `cs = lit ++ rest`. -/
def dropLiteral : List Char → List Char → Option (List Char)
  | [], cs => some cs
  | _ :: _, [] => none
  | l :: ls, c :: cs => if c = l then dropLiteral ls cs else none

/-- The literal part of the negotiator's regex up to the first capture
group (the capture itself starts with the mandatory `0x`). -/
def patternLit : List Char := "this block range should work: [0x".toList

/-- Attempt to match the negotiator's regex at the head of `cs`, returning
the two captured hex-digit runs (without their `0x` prefixes).  Maximal
munch for each `+`/`*` is exactly the regex's behaviour here, because no
shorter run can be followed by the required delimiter. -/
def matchAt (cs : List Char) : Option (List Char × List Char) :=
  match dropLiteral patternLit cs with
  | none => none
  | some rest =>
    let h1 := rest.takeWhile isHexChar
    match rest.dropWhile isHexChar with
    | ',' :: rest2 =>
      match rest2.dropWhile isRegexSpace with
      | '0' :: 'x' :: rest4 =>
        let h2 := rest4.takeWhile isHexChar
        match rest4.dropWhile isHexChar with
        | ']' :: _ => if h1.isEmpty || h2.isEmpty then none else some (h1, h2)
        | _ => none
      | _ => none
    | _ => none

/-- Leftmost regex match over the whole message (`Regex::captures`). -/
def findMatch : List Char → Option (List Char × List Char)
  | [] => none
  | c :: cs =>
    match matchAt (c :: cs) with
    | some r => some r
    | none => findMatch cs

/-- Value of one hex digit. -/
def hexDigitVal (c : Char) : Nat :=
  if c.isDigit then c.toNat - 48
  else if 'a' ≤ c && c ≤ 'f' then c.toNat - 87
  else if 'A' ≤ c && c ≤ 'F' then c.toNat - 55
  else 0

/-- Value of a hex-digit string (the accumulator of `from_str_radix 16`). -/
def hexVal (ds : List Char) : Nat :=
  ds.foldl (fun a c => a * 16 + hexDigitVal c) 0

/-- `ethers::prelude::JsonRpcError`; only its `message` is read here. -/
structure JsonRpcError where
  message : List Char
deriving DecidableEq

/-- Outcome of `retry_with_block_range`.  `panicked` models the `.unwrap()`
on `BlockNumber::from_str` failing because a captured hex value does not
fit in a 64-bit word. -/
inductive RetryResult
  | noRange
  | panicked
  | range (from_ : Nat) (to_ : Nat)
deriving DecidableEq

/-- `retry_with_block_range` (fetch_logs.rs lines 19-43): scan the error
message with the regex; on a match, parse both captures with
`BlockNumber::from_str(..).unwrap()` and return the suggested range
(the unused `range: 10u64` field is dropped); otherwise return `None`. -/
def retry_with_block_range (error : JsonRpcError) : RetryResult :=
  match findMatch error.message with
  | none => .noRange
  | some (h1, h2) =>
    if hexVal h1 < 2 ^ 64 then
      if hexVal h2 < 2 ^ 64 then .range (hexVal h1) (hexVal h2)
      else .panicked
    else .panicked

/-- Declarative reading of the spec's pattern
`this block range should work: [0x<hex>, 0x<hex>]`: the message contains
the literal text with two non-empty hex runs, separated by a comma and
whitespace (the regex's `\s*`). -/
def SpecMatch (msg h1 h2 : List Char) : Prop :=
  h1 ≠ [] ∧ h1.all isHexChar ∧ h2 ≠ [] ∧ h2.all isHexChar ∧
  ∃ pre ws post, ws.all isRegexSpace ∧
    msg = pre ++ patternLit ++ h1 ++ (',' :: (ws ++ ('0' :: 'x' :: (h2 ++ (']' :: post)))))

/-- `ethers::prelude::Log`; the stream only ever reads `block_number`, so the
other (unread) fields of the ethers struct are not modelled. -/
structure Log where
  block_number : Option Nat
deriving DecidableEq

/-- The two block bounds of an `ethers` `Filter`.  `Filter::get_from_block` /
`get_to_block` return `Some n` exactly when the bound is set to a concrete
block number (`BlockNumber::Number`); an unset bound or a tag such as
`Latest` yields `None`, which is what `Option` models.  The address/topic
fields are never read by this module and are not modelled. -/
structure Filter where
  from_block : Option Nat
  to_block : Option Nat
deriving DecidableEq

/-- The `Filter::from_block(..)` builder: overwrite the lower bound. -/
def Filter.set_from_block (f : Filter) (b : Nat) : Filter :=
  { f with from_block := some b }

/-- The `Filter::to_block(..)` builder: overwrite the upper bound. -/
def Filter.set_to_block (f : Filter) (b : Nat) : Filter :=
  { f with to_block := some b }

/-- A provider error (`<M as Middleware>::Error`): `as_error_response`
yields the structured JSON-RPC error when there is one. -/
structure ProviderError where
  as_error_response : Option JsonRpcError
deriving DecidableEq

/-- Result of one `provider.get_logs(&filter)` call. -/
inductive LogsResponse
  | success (logs : List Log)
  | failure (e : ProviderError)
deriving DecidableEq

/-- The remote provider, modelled as an oracle over the call index (the
index is the recursion depth in `inner_fetch_logs` and the loop iteration
in `fetch_logs_stream`), so that time-varying provider behaviour such as
"fail once, then succeed" is expressible.  `get_block_number` returns
`none` when the head query fails (the code `unwrap`s that `Result`). -/
structure Provider where
  get_logs : Nat → Filter → LogsResponse
  get_block_number : Nat → Option Nat

/-- How both error handlers consult the Negotiator: a structured
JSON-RPC payload is required before `retry_with_block_range` is called;
an error without one is treated exactly like a negotiator miss (both
source branches behave identically). -/
def error_negotiation (err : ProviderError) : RetryResult :=
  match err.as_error_response with
  | some jre => retry_with_block_range jre
  | none => .noRange

/-- Outcome of `inner_fetch_logs`.  `outOfFuel` marks a run that was still
retrying when the fuel ran out (the source recursion is unbounded);
`panicked` propagates the negotiator's parse panic. -/
inductive FetchResult
  | ok (logs : List Log)
  | error (e : ProviderError)
  | panicked
  | outOfFuel
deriving DecidableEq

/-- `inner_fetch_logs` (fetch_logs.rs lines 50-81): issue the query; on
success return the logs; on failure ask the Negotiator and either recurse
on the suggested range or return the original error.  Also returns the
list of filters dispatched to `provider.get_logs`, in order.  Note that
the filter is dispatched exactly as given — this function never clamps
`from_block`/`to_block`. -/
def inner_fetch_logs (P : Provider) : Nat → Nat → Filter → FetchResult × List Filter
  | 0, _, _ => (.outOfFuel, [])
  | fuel + 1, d, filter =>
    match P.get_logs d filter with
    | .success logs => (.ok logs, [filter])
    | .failure err =>
      match error_negotiation err with
      | .range f t =>
        let r := inner_fetch_logs P fuel (d + 1) ((filter.set_from_block f).set_to_block t)
        (r.1, filter :: r.2)
      | .panicked => (.panicked, [filter])
      | .noRange => (.error err, [filter])

/-- `fetch_logs` (fetch_logs.rs lines 46-84) just pins and awaits
`inner_fetch_logs` on the caller's filter. -/
def fetch_logs (P : Provider) (fuel : Nat) (filter : Filter) : FetchResult × List Filter :=
  inner_fetch_logs P fuel 0 filter

/-- One item sent on the stream's channel:
`tx.send(Ok(logs))` or `tx.send(Err(err))`. -/
inductive Emit
  | ok (logs : List Log)
  | error (e : ProviderError)
deriving DecidableEq

/-- Outcome of one pass through the `loop` in `fetch_logs_stream`:
continue with a new filter (recording what was emitted and how many
milliseconds were slept), `break`, or panic on an `unwrap` (a panic can
still have emitted the batch first, since `tx.send` precedes the
`block_number.unwrap()`). -/
inductive StepResult
  | next (emit : Option Emit) (sleep_ms : Option Nat) (f : Filter)
  | stop (emit : Option Emit)
  | panicked (emit : Option Emit)
deriving DecidableEq

/-- The clamp at the top of the loop (fetch_logs.rs lines 99-103):
unwrap both bounds (`none` means the task panics) and, when
`from_block > to_block`, rewrite the filter to start at `to_block`. -/
def dispatch_of (f : Filter) : Option Filter :=
  match f.from_block, f.to_block with
  | some fb, some tb => some (if tb < fb then f.set_from_block tb else f)
  | _, _ => none

/-- The part of one loop iteration after the clamp, acting on the
dispatched filter `df` (the source mutates `current_filter` in place at
the clamp, so every later use of the filter in the iteration is `df`). -/
def stream_step (P : Provider) (live_indexing : Bool) (snapshot_to_block : Nat)
    (consumer_open : Bool) (i : Nat) (df : Filter) : StepResult :=
  match P.get_logs i df with
  | .success logs =>
    if logs.isEmpty then
      if live_indexing then
        match P.get_block_number i with
        | none => .panicked none
        | some current_block =>
          .next none (some 500)
            ((df.set_from_block current_block).set_to_block current_block)
      else .stop none
    else
      if consumer_open then
        match logs.getLast? with
        | none => .next (some (.ok logs)) none df
        | some last_log =>
          match last_log.block_number with
          | none => .panicked (some (.ok logs))
          | some bn =>
            .next (some (.ok logs)) none
              ((df.set_from_block (bn + 1)).set_to_block snapshot_to_block)
      else .stop none
  | .failure err =>
    match error_negotiation err with
    | .range f2 t2 => .next none none ((df.set_from_block f2).set_to_block t2)
    | .panicked => .panicked none
    | .noRange =>
      if live_indexing then .next none (some 500) df
      else .stop (some (.error err))

/-- One iteration of the `loop` in `fetch_logs_stream` (lines 97-161),
given the loop index `i` (used to consult the oracle) and the current
filter: unwrap both bounds and clamp (`dispatch_of`), then run the body on
the dispatched filter.  The second component is the filter actually passed
to `provider.get_logs`, when the iteration got that far. -/
def stream_iteration (P : Provider) (live_indexing : Bool) (snapshot_to_block : Nat)
    (consumer_open : Bool) (i : Nat) (f : Filter) : StepResult × Option Filter :=
  match dispatch_of f with
  | none => (.panicked none, none)
  | some df => (stream_step P live_indexing snapshot_to_block consumer_open i df, some df)

/-- Everything observable about a (partial) run of the stream task: the
items sent on the channel and the filters dispatched to the provider. -/
structure RunTrace where
  emits : List Emit
  dispatches : List Filter
deriving DecidableEq

/-- Final state of a fueled run: still looping (with the filter the next
iteration would start from), `break`ed out, or panicked. -/
inductive RunStatus
  | running (f : Filter)
  | stopped
  | panicked
deriving DecidableEq

/-- The `loop` of the spawned task, iterated `fuel` times at most. -/
def stream_loop (P : Provider) (live_indexing : Bool) (snapshot_to_block : Nat)
    (consumer_open : Bool) : Nat → Nat → Filter → RunTrace × RunStatus
  | 0, _, f => (⟨[], []⟩, .running f)
  | fuel + 1, i, f =>
    match stream_iteration P live_indexing snapshot_to_block consumer_open i f with
    | (.next e _ f2, d) =>
      let r := stream_loop P live_indexing snapshot_to_block consumer_open fuel (i + 1) f2
      (⟨e.toList ++ r.1.emits, d.toList ++ r.1.dispatches⟩, r.2)
    | (.stop e, d) => (⟨e.toList, d.toList⟩, .stopped)
    | (.panicked e, d) => (⟨e.toList, d.toList⟩, .panicked)

/-- `fetch_logs_stream` (fetch_logs.rs lines 86-165): snapshot the initial
filter's `to_block` (`unwrap` — a missing bound panics before the loop
starts), then run the loop. -/
def fetch_logs_stream (P : Provider) (live_indexing : Bool) (consumer_open : Bool)
    (initial_filter : Filter) (fuel : Nat) : RunTrace × RunStatus :=
  match initial_filter.to_block with
  | none => (⟨[], []⟩, .panicked)
  | some snapshot_to_block =>
    stream_loop P live_indexing snapshot_to_block consumer_open fuel 0 initial_filter

/-- Block numbers carried by a list of logs (in order; logs without a
`block_number` contribute nothing). -/
def log_blocks (logs : List Log) : List Nat :=
  logs.filterMap Log.block_number

/-- Block numbers of everything sent on the channel, in emission order. -/
def trace_blocks : List Emit → List Nat
  | [] => []
  | .ok logs :: es => log_blocks logs ++ trace_blocks es
  | .error _ :: es => trace_blocks es

/-- Logs of `n` consecutive blocks starting at `fb`, in block order. -/
def blocks_from (logsAt : Nat → List Log) (fb : Nat) : Nat → List Log
  | 0 => []
  | n + 1 => logsAt fb ++ blocks_from logsAt (fb + 1) n

/-- All logs of the inclusive block range `[fb, tb]`, in block order
(empty when `fb > tb`). -/
def range_logs (logsAt : Nat → List Log) (fb tb : Nat) : List Log :=
  blocks_from logsAt fb (tb + 1 - fb)

/-- Test-harness provider modelling a well-behaved EVM node with a fixed
log assignment per block (no reorgs): a log query over `[from, to]`
returns exactly the logs of those blocks in ascending block order, and
the head query at loop iteration `i` answers `head i`. -/
def chain_provider (logsAt : Nat → List Log) (head : Nat → Nat) : Provider where
  get_logs := fun _ f =>
    match f.from_block, f.to_block with
    | some fb, some tb => .success (range_logs logsAt fb tb)
    | _, _ => .success []
  get_block_number := fun i => some (head i)

/-- The log assignment is consistent with the block numbers the logs carry. -/
def WellPlaced (logsAt : Nat → List Log) : Prop :=
  ∀ b, ∀ l ∈ logsAt b, l.block_number = some b

/-- One log per block throughout `[101, 110]` — the C4 backfill scenario
(checkpoint 100, snapshot head 110, every block carrying a log). -/
def denseLogsAt (b : Nat) : List Log :=
  if 101 ≤ b ∧ b ≤ 110 then [⟨some b⟩] else []

/-- Provider for the backfill scenario: all logs of any requested range,
head pinned at 110. -/
def denseProvider : Provider :=
  chain_provider denseLogsAt (fun _ => 110)

/-- What one loop iteration sent on the channel, uniformly over the three
step outcomes. -/
def step_emit : StepResult → Option Emit
  | .next e _ _ => e
  | .stop e => e
  | .panicked e => e

/-- Invariant for the ordering proof (C8): against a consistent chain
(`chain_provider`), the loop is always in one of three state shapes, each
paired with a lower bound `m` for every block number the rest of the run
can emit: a backfill filter `[fb, S]` with `fb ≤ S + 1`; a post-live
return filter `[fb, S]` (reachable only once block `S` is known to be
empty) with `fb` at most one past the last head seen; or a live polling
filter `[h, h]` with `S ≤ h ≤ head i` and block `S` known empty. -/
def GoodBound (logsAt : Nat → List Log) (head : Nat → Nat) (S i : Nat)
    (f : Filter) (m : Nat) : Prop :=
  ∃ fb, f.from_block = some fb ∧
    ((f.to_block = some S ∧ fb ≤ S + 1 ∧ m ≤ min fb S) ∨
     (f.to_block = some S ∧ logsAt S = [] ∧ fb ≤ head i + 1 ∧ m + 1 ≤ fb) ∨
     (f.to_block = some fb ∧ S ≤ fb ∧ fb ≤ head i ∧ logsAt S = [] ∧ m ≤ fb))

/-- Provider whose every log query fails with the given structured
JSON-RPC message and whose head queries fail. -/
def constFailProvider (m : List Char) : Provider where
  get_logs := fun _ _ => .failure ⟨some ⟨m⟩⟩
  get_block_number := fun _ => none

/-- Provider with no logs at all; head pinned at 0. -/
def emptyProvider : Provider where
  get_logs := fun _ _ => .success []
  get_block_number := fun _ => some 0

/-- Provider with no logs and head pinned at 120 (live idle polling). -/
def idleProvider : Provider where
  get_logs := fun _ _ => .success []
  get_block_number := fun _ => some 120

/-- Provider whose first batch contains a log with no `block_number`
followed by one at block 105, then nothing. -/
def gapLogProvider : Provider where
  get_logs := fun i _ => if i = 0 then .success [⟨none⟩, ⟨some 105⟩] else .success []
  get_block_number := fun _ => some 0

/-- Logs only at blocks 105 and 150 (the latter past the snapshot head). -/
def sparseLogsAt (b : Nat) : List Log :=
  if b = 105 then [⟨some 105⟩] else if b = 150 then [⟨some 150⟩] else []

/-- Sparse chain whose head has already advanced to 150. -/
def sparseProvider : Provider :=
  chain_provider sparseLogsAt (fun _ => 150)

end Rindexer

namespace Rindexer

/-! ### Lemmas: the scanner agrees with the declarative pattern -/

theorem dropLiteral_eq_some : ∀ (lit cs rest : List Char),
    dropLiteral lit cs = some rest ↔ cs = lit ++ rest
  | [], cs, rest => by simp [dropLiteral, eq_comm]
  | l :: ls, [], rest => by simp [dropLiteral]
  | l :: ls, c :: cs, rest => by
    by_cases hc : c = l
    · simp [dropLiteral, hc, dropLiteral_eq_some ls cs rest]
    · simp [dropLiteral, hc]

theorem all_takeWhile (p : α → Bool) : ∀ (l : List α), ((l.takeWhile p).all p) = true
  | [] => rfl
  | a :: l => by
    by_cases h : p a
    · simp only [List.takeWhile_cons, h, if_true, List.all_cons, h,
        Bool.true_and]
      exact all_takeWhile p l
    · simp [List.takeWhile_cons, h]

theorem takeWhile_all_append {p : α → Bool} {xs : List α} (hxs : xs.all p = true)
    {y : α} (hy : p y = false) (r : List α) :
    (xs ++ y :: r).takeWhile p = xs := by
  rw [List.takeWhile_append_of_pos (by simpa [List.all_eq_true] using hxs)]
  simp [List.takeWhile_cons, hy]

theorem dropWhile_all_append {p : α → Bool} {xs : List α} (hxs : xs.all p = true)
    {y : α} (hy : p y = false) (r : List α) :
    (xs ++ y :: r).dropWhile p = y :: r := by
  rw [List.dropWhile_append_of_pos (by simpa [List.all_eq_true] using hxs)]
  simp [List.dropWhile_cons, hy]

theorem isEmpty_false_ne_nil {l : List α} (h : l.isEmpty = false) : l ≠ [] := by
  cases l <;> simp_all

theorem matchAt_sound {cs h1 h2 : List Char} (h : matchAt cs = some (h1, h2)) :
    h1 ≠ [] ∧ h1.all isHexChar ∧ h2 ≠ [] ∧ h2.all isHexChar ∧
    ∃ ws post, ws.all isRegexSpace ∧
      cs = patternLit ++ h1 ++ (',' :: (ws ++ ('0' :: 'x' :: (h2 ++ (']' :: post))))) := by
  simp only [matchAt] at h
  split at h
  · exact absurd h (by simp)
  next rest hd =>
    split at h
    next rest2 hdw =>
      split at h
      next rest4 hdw2 =>
        split at h
        next tail5 hdw3 =>
          split at h
          · exact absurd h (by simp)
          next hguard =>
            simp only [Option.some.injEq, Prod.mk.injEq] at h
            obtain ⟨hh1, hh2⟩ := h
            rw [Bool.or_eq_true, not_or, Bool.not_eq_true, Bool.not_eq_true] at hguard
            obtain ⟨hg1, hg2⟩ := hguard
            subst hh1; subst hh2
            have hrest : rest = rest.takeWhile isHexChar ++ (',' :: rest2) := by
              conv_lhs => rw [← List.takeWhile_append_dropWhile isHexChar rest]
              rw [hdw]
            have hrest2 : rest2 = rest2.takeWhile isRegexSpace ++ ('0' :: 'x' :: rest4) := by
              conv_lhs => rw [← List.takeWhile_append_dropWhile isRegexSpace rest2]
              rw [hdw2]
            have hrest4 : rest4 = rest4.takeWhile isHexChar ++ (']' :: tail5) := by
              conv_lhs => rw [← List.takeWhile_append_dropWhile isHexChar rest4]
              rw [hdw3]
            refine ⟨isEmpty_false_ne_nil hg1, all_takeWhile _ _,
              isEmpty_false_ne_nil hg2, all_takeWhile _ _,
              rest2.takeWhile isRegexSpace, tail5, all_takeWhile _ _, ?_⟩
            rw [(dropLiteral_eq_some _ _ _).1 hd]
            conv_lhs => rw [hrest, hrest2, hrest4]
            simp [List.append_assoc]
        next hne => exact absurd h (by simp)
      next hne => exact absurd h (by simp)
    next hne => exact absurd h (by simp)

theorem matchAt_complete {h1 h2 ws : List Char}
    (hh1 : h1 ≠ []) (ha1 : h1.all isHexChar) (hh2 : h2 ≠ []) (ha2 : h2.all isHexChar)
    (hws : ws.all isRegexSpace) (post : List Char) :
    matchAt (patternLit ++ h1 ++ (',' :: (ws ++ ('0' :: 'x' :: (h2 ++ (']' :: post))))))
      = some (h1, h2) := by
  have hd : dropLiteral patternLit
      (patternLit ++ (h1 ++ (',' :: (ws ++ ('0' :: 'x' :: (h2 ++ (']' :: post)))))))
      = some (h1 ++ (',' :: (ws ++ ('0' :: 'x' :: (h2 ++ (']' :: post)))))) :=
    (dropLiteral_eq_some _ _ _).2 rfl
  have ht1 := takeWhile_all_append (p := isHexChar) ha1 (y := ',') (by decide)
    (ws ++ ('0' :: 'x' :: (h2 ++ (']' :: post))))
  have hd1 := dropWhile_all_append (p := isHexChar) ha1 (y := ',') (by decide)
    (ws ++ ('0' :: 'x' :: (h2 ++ (']' :: post))))
  have hd2 := dropWhile_all_append (p := isRegexSpace) hws (y := '0') (by decide)
    ('x' :: (h2 ++ (']' :: post)))
  have ht3 := takeWhile_all_append (p := isHexChar) ha2 (y := ']') (by decide) post
  have hd3 := dropWhile_all_append (p := isHexChar) ha2 (y := ']') (by decide) post
  simp only [matchAt, List.append_assoc, List.cons_append, hd]
  simp only [ht1, hd1, hd2, ht3, hd3]
  simp [List.isEmpty_eq_true, hh1, hh2]

theorem findMatch_of_matchAt {msg : List Char} {r : List Char × List Char}
    (h : matchAt msg = some r) : findMatch msg = some r := by
  cases msg with
  | nil =>
    have : matchAt ([] : List Char) = none := by decide
    rw [this] at h; exact absurd h (by simp)
  | cons c cs => simp [findMatch, h]

theorem findMatch_app_complete : ∀ (pre rest : List Char),
    (∃ r, matchAt rest = some r) → ∃ r, findMatch (pre ++ rest) = some r
  | [], rest, ⟨r, hr⟩ => ⟨r, by simpa using findMatch_of_matchAt hr⟩
  | p :: pre, rest, h => by
    obtain ⟨r, hr⟩ := findMatch_app_complete pre rest h
    show ∃ r, findMatch (p :: (pre ++ rest)) = some r
    rw [findMatch]
    cases hm : matchAt (p :: (pre ++ rest)) with
    | some r2 => exact ⟨r2, rfl⟩
    | none => exact ⟨r, hr⟩

theorem findMatch_sound : ∀ {msg h1 h2 : List Char},
    findMatch msg = some (h1, h2) → SpecMatch msg h1 h2 := by
  intro msg
  induction msg with
  | nil => intro h1 h2 h; exact absurd h (by simp [findMatch])
  | cons c cs ih =>
    intro h1 h2 h
    rw [findMatch] at h
    cases hm : matchAt (c :: cs) with
    | some r =>
      rw [hm] at h
      simp only [Option.some.injEq] at h
      subst h
      obtain ⟨a1, a2, a3, a4, ws, post, a5, heq⟩ := matchAt_sound hm
      exact ⟨a1, a2, a3, a4, [], ws, post, a5, by simpa using heq⟩
    | none =>
      rw [hm] at h
      obtain ⟨a1, a2, a3, a4, pre, ws, post, a5, heq⟩ := ih h
      exact ⟨a1, a2, a3, a4, c :: pre, ws, post, a5, by simp [heq]⟩

theorem findMatch_complete {msg h1 h2 : List Char} (h : SpecMatch msg h1 h2) :
    ∃ r, findMatch msg = some r := by
  obtain ⟨a1, a2, a3, a4, pre, ws, post, a5, heq⟩ := h
  subst heq
  simp only [List.append_assoc]
  exact findMatch_app_complete pre _ ⟨(h1, h2), by
    simpa [List.append_assoc] using matchAt_complete a1 a2 a3 a4 a5 post⟩


/-! ### Claim C1: the Block-Range Negotiator -/

/-- C1 (amended): for every error message in which the pattern
`this block range should work: [0x<hex>,<ws>0x<hex>]` occurs (comma
followed by optional whitespace, as the source regex's `,\\s*`),
`retry_with_block_range` returns the two hex values parsed as block
numbers provided both fit in 64 bits — on an occurrence whose value
exceeds 64 bits the `unwrap` of the failed parse panics instead of
returning — and for every message without an occurrence it returns
`None`.  Conjuncts: (1) no occurrence → `None`; (2) every returned range
consists of the parsed values of an occurrence, both below `2 ^ 64`;
(3) an occurrence never yields `None`; (4) the spec's example message
yields `{from: 1, to: 5}`. -/
theorem C1_negotiator_amended :
    (∀ e : JsonRpcError, (¬ ∃ h1 h2, SpecMatch e.message h1 h2) →
      retry_with_block_range e = .noRange) ∧
    (∀ (e : JsonRpcError) (v1 v2 : Nat), retry_with_block_range e = .range v1 v2 →
      ∃ h1 h2, SpecMatch e.message h1 h2 ∧ v1 = hexVal h1 ∧ v2 = hexVal h2 ∧
        v1 < 2 ^ 64 ∧ v2 < 2 ^ 64) ∧
    (∀ (e : JsonRpcError) (h1 h2 : List Char), SpecMatch e.message h1 h2 →
      retry_with_block_range e ≠ .noRange) ∧
    retry_with_block_range ⟨"this block range should work: [0x1, 0x5]".toList⟩
      = .range 1 5 := by
  refine ⟨?_, ?_, ?_, by decide⟩
  · intro e hno
    rw [retry_with_block_range]
    cases hf : findMatch e.message with
    | none => rfl
    | some r =>
      obtain ⟨a, b⟩ := r
      exact absurd ⟨a, b, findMatch_sound hf⟩ hno
  · intro e v1 v2 h
    rw [retry_with_block_range] at h
    cases hf : findMatch e.message with
    | none => rw [hf] at h; exact absurd h (by simp)
    | some r =>
      obtain ⟨h1, h2⟩ := r
      rw [hf] at h
      simp only at h
      split at h
      · split at h
        · simp only [RetryResult.range.injEq] at h
          exact ⟨h1, h2, findMatch_sound hf, h.1.symm, h.2.symm,
            h.1 ▸ (by assumption), h.2 ▸ (by assumption)⟩
        · exact absurd h (by simp)
      · exact absurd h (by simp)
  · intro e h1 h2 hs
    obtain ⟨r, hr⟩ := findMatch_complete hs
    obtain ⟨g1, g2⟩ := r
    rw [retry_with_block_range, hr]
    simp only
    split
    · split <;> simp
    · simp

/-- C1 witness: the amended theorem applied to the spec's example message. -/
theorem C1_negotiator_witness :
    ∃ h1 h2, SpecMatch ("this block range should work: [0x1, 0x5]".toList) h1 h2 ∧
      (1 : Nat) = hexVal h1 ∧ (5 : Nat) = hexVal h2 ∧
      (1 : Nat) < 2 ^ 64 ∧ (5 : Nat) < 2 ^ 64 :=
  C1_negotiator_amended.2.1 ⟨"this block range should work: [0x1, 0x5]".toList⟩ 1 5 (by decide)

/-- C1 counterexample to the claim as stated: this message contains the
pattern (first hex value `0x10000000000000000` = `2 ^ 64`), so the claim
requires `Some {from: 2^64, to: 5}`, but the code panics on the failed
64-bit parse instead of returning. -/
theorem C1_overflow_counterexample :
    (∃ h1 h2, SpecMatch
      ("this block range should work: [0x10000000000000000, 0x5]".toList) h1 h2) ∧
    retry_with_block_range
      ⟨"this block range should work: [0x10000000000000000, 0x5]".toList⟩
      = .panicked := by
  constructor
  · exact ⟨"10000000000000000".toList, "5".toList, by decide, by decide, by decide,
      by decide, [], " ".toList, [], by decide, by decide⟩
  · decide

/-! ### Claim C2: the Adaptive Log Fetcher -/

/-- C2 (amended): on a failed request, (1) when the error carries a
structured response from which the Negotiator extracts a range, the
filter's bounds are replaced by that range and the fetch retries
recursively (the original filter is recorded as dispatched, then whatever
the retry dispatches); (2) when the Negotiator yields no range (including
errors with no structured response, folded into `error_negotiation`), the
original error is returned; (3) there is no retry-count cap: against a
provider that always fails with a narrowable range, the recursion never
returns, whatever the fuel.  (Not in the claim: a suggested range whose
hex overflows 64 bits makes the parse `unwrap` panic — see the
counterexample.) -/
theorem C2_fetcher_amended :
    (∀ (P : Provider) (fuel d : Nat) (filter : Filter) (err : ProviderError) (f t : Nat),
      P.get_logs d filter = .failure err → error_negotiation err = .range f t →
      inner_fetch_logs P (fuel + 1) d filter =
        ((inner_fetch_logs P fuel (d + 1) ((filter.set_from_block f).set_to_block t)).1,
         filter :: (inner_fetch_logs P fuel (d + 1) ((filter.set_from_block f).set_to_block t)).2)) ∧
    (∀ (P : Provider) (fuel d : Nat) (filter : Filter) (err : ProviderError),
      P.get_logs d filter = .failure err → error_negotiation err = .noRange →
      inner_fetch_logs P (fuel + 1) d filter = (.error err, [filter])) ∧
    (∀ P : Provider,
      (∀ d flt, ∃ err f t, P.get_logs d flt = .failure err ∧
        error_negotiation err = .range f t) →
      ∀ fuel d flt, (inner_fetch_logs P fuel d flt).1 = .outOfFuel) := by
  refine ⟨?_, ?_, ?_⟩
  · intro P fuel d filter err f t h1 h2
    simp [inner_fetch_logs, h1, h2]
  · intro P fuel d filter err h1 h2
    simp [inner_fetch_logs, h1, h2]
  · intro P hP fuel
    induction fuel with
    | zero => intro d flt; rfl
    | succ n ih =>
      intro d flt
      obtain ⟨err, f, t, h1, h2⟩ := hP d flt
      simp [inner_fetch_logs, h1, h2, ih]

/-- C2 witness: the amended theorem's no-range conjunct applied to a
provider failing with an unparseable message. -/
theorem C2_fetcher_witness :
    inner_fetch_logs (constFailProvider ("boom".toList)) (0 + 1) 0 ⟨some 1, some 2⟩
      = (.error ⟨some ⟨"boom".toList⟩⟩, [⟨some 1, some 2⟩]) :=
  C2_fetcher_amended.2.1 (constFailProvider ("boom".toList)) 0 0 ⟨some 1, some 2⟩
    ⟨some ⟨"boom".toList⟩⟩ (by decide) (by decide)

/-- C2 counterexample to the claim as stated: a provider rejection whose
embedded range starts at `0x10000000000000000` (= `2 ^ 64`).  The claim
requires either a retry with the narrower range or the original error
back; the code instead panics in `retry_with_block_range`. -/
theorem C2_overflow_counterexample :
    (inner_fetch_logs
      (constFailProvider ("this block range should work: [0x10000000000000000, 0x5]".toList))
      2 0 ⟨some 1, some 100⟩).1 = .panicked := by
  decide


/-! ### Claim C3: `fromBlock ≤ toBlock` at dispatch -/

theorem dispatch_of_le {f d : Filter} (h : dispatch_of f = some d) :
    ∃ fb tb, d.from_block = some fb ∧ d.to_block = some tb ∧ fb ≤ tb := by
  unfold dispatch_of at h
  obtain ⟨fo, to_⟩ := f
  cases fo with
  | none => simp at h
  | some fb =>
    cases to_ with
    | none => simp at h
    | some tb =>
      simp only [Option.some.injEq] at h
      subst h
      by_cases hc : tb < fb
      · exact ⟨tb, tb, by simp [hc, Filter.set_from_block], by simp [hc, Filter.set_from_block],
          le_refl tb⟩
      · exact ⟨fb, tb, by simp [hc], by simp [hc], by omega⟩

theorem stream_iteration_dispatch {P : Provider} {live o : Bool} {S i : Nat} {f d : Filter}
    (h : (stream_iteration P live S o i f).2 = some d) : dispatch_of f = some d := by
  unfold stream_iteration at h
  cases hdf : dispatch_of f with
  | none => rw [hdf] at h; simp at h
  | some df => rw [hdf] at h; simpa using h

theorem stream_loop_dispatches_clamped (P : Provider) (live o : Bool) (S : Nat) :
    ∀ (fuel i : Nat) (f d : Filter),
    d ∈ (stream_loop P live S o fuel i f).1.dispatches →
    ∃ fb tb, d.from_block = some fb ∧ d.to_block = some tb ∧ fb ≤ tb := by
  intro fuel
  induction fuel with
  | zero => intro i f d h; simp [stream_loop] at h
  | succ n ih =>
    intro i f d h
    rw [stream_loop] at h
    cases hit : stream_iteration P live S o i f with
    | mk res dopt =>
      rw [hit] at h
      have hd : dopt = some d → ∃ fb tb, d.from_block = some fb ∧ d.to_block = some tb ∧
          fb ≤ tb := by
        intro hmem
        subst hmem
        exact dispatch_of_le (stream_iteration_dispatch (by rw [hit]))
      cases res with
      | next e s f2 =>
        simp only [List.mem_append, Option.mem_toList, Option.mem_def] at h
        cases h with
        | inl hm => exact hd hm
        | inr hm => exact ih (i + 1) f2 d (by simpa using hm)
      | stop e =>
        simp only [List.mem_append, Option.mem_toList, Option.mem_def] at h
        exact hd h
      | panicked e =>
        simp only [List.mem_append, Option.mem_toList, Option.mem_def] at h
        exact hd h

/-- C3 (amended): every remote log request issued by the
`fetch_logs_stream` loop has concrete bounds satisfying
`fromBlock ≤ toBlock` at the moment of dispatch — the clamp normalizes a
`fromBlock > toBlock` filter to `[toBlock, toBlock]` first.  (The original
claim also asserted this for `fetch_logs`; that part is refuted by
`C3_fetch_logs_counterexample`: `inner_fetch_logs` dispatches its filter
exactly as given, with no normalization.) -/
theorem C3_stream_clamp_amended :
    ∀ (P : Provider) (live o : Bool) (init : Filter) (fuel : Nat) (d : Filter),
    d ∈ (fetch_logs_stream P live o init fuel).1.dispatches →
    ∃ fb tb, d.from_block = some fb ∧ d.to_block = some tb ∧ fb ≤ tb := by
  intro P live o init fuel d h
  rw [fetch_logs_stream] at h
  cases hto : init.to_block with
  | none => rw [hto] at h; simp at h
  | some S =>
    rw [hto] at h
    exact stream_loop_dispatches_clamped P live o S fuel 0 init d h

/-- C3 witness: the amended theorem applied to a concrete backfill run. -/
theorem C3_stream_clamp_witness :
    ∃ fb tb, (Filter.mk (some 101) (some 110)).from_block = some fb ∧
      (Filter.mk (some 101) (some 110)).to_block = some tb ∧ fb ≤ tb :=
  C3_stream_clamp_amended denseProvider false true ⟨some 101, some 110⟩ 1
    ⟨some 101, some 110⟩ (by decide)

/-- C3 counterexample to the claim as stated: `fetch_logs` called with
`fromBlock = 5 > 3 = toBlock` dispatches that filter unchanged — no
normalization happens before the request is sent. -/
theorem C3_fetch_logs_counterexample :
    (fetch_logs emptyProvider 1 ⟨some 5, some 3⟩).2 = [⟨some 5, some 3⟩] ∧ (3 : Nat) < 5 := by
  decide


/-! ### Claim C5: advancing past a non-empty batch -/

/-- C5: on a successful non-empty fetch (with the consumer connected and
the last log carrying a block number), the batch is sent downstream, no
sleep occurs, and the next iteration's filter is
`[last log's block + 1, snapshot_to_block]`; the loop continues
unconditionally (`.next`), so in particular it keeps fetching whenever
`fromBlock ≤ toBlock`. -/
theorem C5_advance :
    ∀ (P : Provider) (live : Bool) (S i : Nat) (f df : Filter) (logs : List Log)
      (last_log : Log) (L : Nat),
    dispatch_of f = some df → P.get_logs i df = .success logs →
    logs.getLast? = some last_log → last_log.block_number = some L →
    stream_iteration P live S true i f =
      (.next (some (.ok logs)) none ((df.set_from_block (L + 1)).set_to_block S), some df) := by
  intro P live S i f df logs last_log L hdf hlogs hlast hbn
  have hne : logs.isEmpty = false := by
    cases logs with
    | nil => simp at hlast
    | cons a l => rfl
  simp [stream_iteration, hdf, stream_step, hlogs, hne, hlast, hbn]

/-- C5 witness: the theorem applied to the dense backfill scenario. -/
theorem C5_advance_witness :
    stream_iteration denseProvider false 110 true 0 ⟨some 101, some 110⟩ =
      (.next (some (.ok (range_logs denseLogsAt 101 110))) none
        (((Filter.mk (some 101) (some 110)).set_from_block (110 + 1)).set_to_block 110),
       some ⟨some 101, some 110⟩) :=
  C5_advance denseProvider false 110 0 ⟨some 101, some 110⟩ ⟨some 101, some 110⟩
    (range_logs denseLogsAt 101 110) ⟨some 110⟩ 110 (by decide) rfl (by decide) rfl

/-! ### Claim C6: live idle polling -/

/-- C6: on a successful empty fetch with live indexing enabled, the
iteration sleeps the fixed 500 ms interval, re-queries the chain head,
sets the filter to `[head, head]`, emits nothing, and continues the loop
(`.next`, not a termination). -/
theorem C6_live_poll :
    ∀ (P : Provider) (o : Bool) (S i : Nat) (f df : Filter) (hd : Nat),
    dispatch_of f = some df → P.get_logs i df = .success [] →
    P.get_block_number i = some hd →
    stream_iteration P true S o i f =
      (.next none (some 500) ((df.set_from_block hd).set_to_block hd), some df) := by
  intro P o S i f df hd hdf hlogs hhd
  simp [stream_iteration, hdf, stream_step, hlogs, hhd]

/-- C6 witness: live idle polling against a chain with no logs. -/
theorem C6_live_poll_witness :
    stream_iteration idleProvider true 110 true 3 ⟨some 111, some 110⟩ =
      (.next none (some 500)
        (((Filter.mk (some 110) (some 110)).set_from_block 120).set_to_block 120),
       some ⟨some 110, some 110⟩) :=
  C6_live_poll idleProvider true 110 3 ⟨some 111, some 110⟩ ⟨some 110, some 110⟩ 120
    (by decide) rfl rfl

/-! ### Claim C7: unresolved fetch errors -/

theorem step_emit_live_ok (P : Provider) (S : Nat) (o : Bool) (i : Nat) (df : Filter) :
    ∀ e, step_emit (stream_step P true S o i df) = some e → ∃ logs, e = .ok logs := by
  intro e h
  unfold stream_step at h
  repeat' split at h
  all_goals simp_all [step_emit]
  all_goals exact ⟨_, h.symm⟩

theorem stream_iteration_fst (P : Provider) (live o : Bool) (S i : Nat) (f : Filter) :
    (stream_iteration P live S o i f).1 = .panicked none ∨
    ∃ df, dispatch_of f = some df ∧
      (stream_iteration P live S o i f).1 = stream_step P live S o i df := by
  unfold stream_iteration
  cases hdf : dispatch_of f with
  | none => exact Or.inl rfl
  | some df => exact Or.inr ⟨df, rfl, rfl⟩

theorem stream_loop_live_ok (P : Provider) (o : Bool) (S : Nat) :
    ∀ (fuel i : Nat) (f : Filter) (e : Emit),
    e ∈ (stream_loop P true S o fuel i f).1.emits → ∃ logs, e = .ok logs := by
  intro fuel
  induction fuel with
  | zero => intro i f e h; simp [stream_loop] at h
  | succ n ih =>
    intro i f e h
    rw [stream_loop] at h
    cases hit : stream_iteration P true S o i f with
    | mk res dopt =>
      rw [hit] at h
      have hres : ∀ e2, step_emit res = some e2 → ∃ logs, e2 = .ok logs := by
        intro e2 he2
        rcases stream_iteration_fst P true o S i f with hpan | ⟨df, hdf, hstep⟩
        · rw [hit] at hpan
          simp only at hpan
          rw [hpan] at he2
          simp [step_emit] at he2
        · rw [hit] at hstep
          simp only at hstep
          rw [hstep] at he2
          exact step_emit_live_ok P S o i df e2 he2
      cases res with
      | next e2 s f2 =>
        simp only [List.mem_append, Option.mem_toList, Option.mem_def] at h
        cases h with
        | inl hm => exact hres e (by simpa [step_emit] using hm)
        | inr hm => exact ih (i + 1) f2 e (by simpa using hm)
      | stop e2 =>
        simp only [List.mem_append, Option.mem_toList, Option.mem_def] at h
        exact hres e (by simpa [step_emit] using h)
      | panicked e2 =>
        simp only [List.mem_append, Option.mem_toList, Option.mem_def] at h
        exact hres e (by simpa [step_emit] using h)

/-- C7: when a fetch fails and the Negotiator cannot produce a narrower
range (`error_negotiation err = .noRange`, covering errors with no
structured response): (1) with live indexing the iteration sleeps the
fixed 500 ms backoff and retries the very filter it dispatched, emitting
nothing; (2) over any whole live run, nothing but `Ok` batches is ever
emitted — errors never reach the consumer; (3) with live indexing
disabled, the error is sent downstream and the loop `break`s, so it is
sent exactly once. -/
theorem C7_unresolved_error :
    (∀ (P : Provider) (o : Bool) (S i : Nat) (f df : Filter) (err : ProviderError),
      dispatch_of f = some df → P.get_logs i df = .failure err →
      error_negotiation err = .noRange →
      stream_iteration P true S o i f = (.next none (some 500) df, some df)) ∧
    (∀ (P : Provider) (o : Bool) (init : Filter) (fuel : Nat) (e : Emit),
      e ∈ (fetch_logs_stream P true o init fuel).1.emits → ∃ logs, e = .ok logs) ∧
    (∀ (P : Provider) (o : Bool) (S i : Nat) (f df : Filter) (err : ProviderError),
      dispatch_of f = some df → P.get_logs i df = .failure err →
      error_negotiation err = .noRange →
      stream_iteration P false S o i f = (.stop (some (.error err)), some df)) := by
  refine ⟨?_, ?_, ?_⟩
  · intro P o S i f df err hdf herr hneg
    simp [stream_iteration, hdf, stream_step, herr, hneg]
  · intro P o init fuel e h
    rw [fetch_logs_stream] at h
    cases hto : init.to_block with
    | none => rw [hto] at h; simp at h
    | some S =>
      rw [hto] at h
      exact stream_loop_live_ok P o S fuel 0 init e h
  · intro P o S i f df err hdf herr hneg
    simp [stream_iteration, hdf, stream_step, herr, hneg]

/-- C7 witness: the live-retry conjunct applied to a provider that always
fails with an unparseable message. -/
theorem C7_unresolved_error_witness :
    stream_iteration (constFailProvider ("boom".toList)) true 110 true 0
      ⟨some 101, some 110⟩ =
      (.next none (some 500) ⟨some 101, some 110⟩, some ⟨some 101, some 110⟩) :=
  C7_unresolved_error.1 (constFailProvider ("boom".toList)) true 110 0
    ⟨some 101, some 110⟩ ⟨some 101, some 110⟩ ⟨some ⟨"boom".toList⟩⟩
    (by decide) rfl (by decide)


/-! ### Claim C9: unstated totality preconditions (panics) -/

/-- C9 (amended): the stream task is total only under preconditions the
spec never states, and it panics (`unwrap`) rather than surfacing an
error when they fail: (1) an initial filter without a concrete `to_block`
panics at the snapshot `unwrap`, before the loop, whatever the fuel;
(2) an initial filter without a concrete `from_block` panics in the first
iteration; (3) a delivered non-empty batch whose *last* log carries no
`block_number` panics — note the batch has already been sent; (4) in live
mode, a failed chain-head query panics.  (Amended from "every log in a
non-empty batch": only the last log's `block_number` is unwrapped —
`C9_middle_log_counterexample` shows a batch whose other logs lack a
block number `break`s normally.) -/
theorem C9_panics_amended :
    (∀ (P : Provider) (live o : Bool) (fb : Option Nat) (fuel : Nat),
      fetch_logs_stream P live o ⟨fb, none⟩ fuel = (⟨[], []⟩, .panicked)) ∧
    (∀ (P : Provider) (live o : Bool) (tb fuel : Nat),
      fetch_logs_stream P live o ⟨none, some tb⟩ (fuel + 1) = (⟨[], []⟩, .panicked)) ∧
    (∀ (P : Provider) (live : Bool) (S i : Nat) (f df : Filter) (logs : List Log)
       (last_log : Log),
      dispatch_of f = some df → P.get_logs i df = .success logs →
      logs.getLast? = some last_log → last_log.block_number = none →
      stream_iteration P live S true i f = (.panicked (some (.ok logs)), some df)) ∧
    (∀ (P : Provider) (o : Bool) (S i : Nat) (f df : Filter),
      dispatch_of f = some df → P.get_logs i df = .success [] →
      P.get_block_number i = none →
      stream_iteration P true S o i f = (.panicked none, some df)) := by
  refine ⟨?_, ?_, ?_, ?_⟩
  · intro P live o fb fuel
    simp [fetch_logs_stream]
  · intro P live o tb fuel
    simp [fetch_logs_stream, stream_loop, stream_iteration, dispatch_of]
  · intro P live S i f df logs last_log hdf hlogs hlast hbn
    have hne : logs.isEmpty = false := by
      cases logs with
      | nil => simp at hlast
      | cons a l => rfl
    simp [stream_iteration, hdf, stream_step, hlogs, hne, hlast, hbn]
  · intro P o S i f df hdf hlogs hhd
    simp [stream_iteration, hdf, stream_step, hlogs, hhd]

/-- C9 witness: the snapshot-`unwrap` conjunct at a concrete filter with
no `to_block`. -/
theorem C9_panics_witness :
    fetch_logs_stream emptyProvider false true ⟨some 1, none⟩ 5 = (⟨[], []⟩, .panicked) :=
  C9_panics_amended.1 emptyProvider false true (some 1) 5

/-- C9 counterexample to the claim as stated: the first batch contains a
log with `block_number = none` (violating the claim's "every log in a
non-empty batch carries a block_number"), yet the stream does not panic —
the batch's last log has a block number, so the run advances and then
`break`s normally (`.stopped`). -/
theorem C9_middle_log_counterexample :
    fetch_logs_stream gapLogProvider false true ⟨some 101, some 110⟩ 2 =
      (⟨[.ok [⟨none⟩, ⟨some 105⟩]],
        [⟨some 101, some 110⟩, ⟨some 106, some 110⟩]⟩, .stopped) := by
  decide

/-! ### Claim C10: the snapshot reset after a live batch -/

/-- C10: after any successful non-empty fetch — here one whose dispatched
filter was a live-mode `[h, h]` with `h` past the snapshot and whose last
log is at block `L ≥ snapshot` — the next filter is
`[L + 1, snapshot_to_block]` (the `to_block` is reset to the snapshot
captured at stream start), and the clamp then collapses the next
iteration's dispatch to `[snapshot, snapshot]` rather than staying at the
current head. -/
theorem C10_snapshot_reset :
    ∀ (P : Provider) (live : Bool) (S i h L : Nat) (f : Filter) (logs : List Log) (ll : Log),
    dispatch_of f = some ⟨some h, some h⟩ → S < h →
    P.get_logs i ⟨some h, some h⟩ = .success logs → logs.getLast? = some ll →
    ll.block_number = some L → S ≤ L →
    stream_iteration P live S true i f =
      (.next (some (.ok logs)) none ⟨some (L + 1), some S⟩, some ⟨some h, some h⟩) ∧
    dispatch_of ⟨some (L + 1), some S⟩ = some ⟨some S, some S⟩ := by
  intro P live S i h L f logs ll hdf hSh hlogs hlast hbn hSL
  have hne : logs.isEmpty = false := by
    cases logs with
    | nil => simp at hlast
    | cons a l => rfl
  constructor
  · simp [stream_iteration, hdf, stream_step, hlogs, hne, hlast, hbn,
      Filter.set_from_block, Filter.set_to_block]
  · simp only [dispatch_of]
    have : S < L + 1 := by omega
    simp [this, Filter.set_from_block]

/-- C10 witness: the sparse chain whose head (150) is past the snapshot
(110); the live `[150, 150]` fetch returns block 150's log, and the next
dispatch collapses back to `[110, 110]`. -/
theorem C10_snapshot_reset_witness :
    stream_iteration sparseProvider true 110 true 2 ⟨some 150, some 150⟩ =
      (.next (some (.ok [⟨some 150⟩])) none ⟨some (150 + 1), some 110⟩,
        some ⟨some 150, some 150⟩) ∧
    dispatch_of ⟨some (150 + 1), some 110⟩ = some ⟨some 110, some 110⟩ :=
  C10_snapshot_reset sparseProvider true 110 2 150 150 ⟨some 150, some 150⟩
    [⟨some 150⟩] ⟨some 150⟩ (by decide) (by decide) (by decide) (by decide) rfl
    (by decide)


/-! ### Loop unfolding equations -/

theorem stream_loop_next {P : Provider} {live o : Bool} {S i fuel : Nat} {f f2 : Filter}
    {e : Option Emit} {s : Option Nat} {d : Option Filter}
    (hit : stream_iteration P live S o i f = (.next e s f2, d)) :
    stream_loop P live S o (fuel + 1) i f =
      (⟨e.toList ++ (stream_loop P live S o fuel (i + 1) f2).1.emits,
        d.toList ++ (stream_loop P live S o fuel (i + 1) f2).1.dispatches⟩,
       (stream_loop P live S o fuel (i + 1) f2).2) := by
  rw [stream_loop, hit]

theorem stream_loop_stop {P : Provider} {live o : Bool} {S i fuel : Nat} {f : Filter}
    {e : Option Emit} {d : Option Filter}
    (hit : stream_iteration P live S o i f = (.stop e, d)) :
    stream_loop P live S o (fuel + 1) i f = (⟨e.toList, d.toList⟩, .stopped) := by
  rw [stream_loop, hit]

/-! ### Claim C4: exactly-once backfill coverage -/

theorem dense_running : ∀ (fuel i : Nat),
    (stream_loop denseProvider false 110 true fuel i ⟨some 111, some 110⟩).2
      = .running ⟨some 111, some 110⟩ := by
  intro fuel
  induction fuel with
  | zero => intro i; rfl
  | succ n ih =>
    intro i
    have hit : stream_iteration denseProvider false 110 true i ⟨some 111, some 110⟩ =
        (.next (some (.ok [⟨some 110⟩])) none ⟨some 111, some 110⟩,
         some ⟨some 110, some 110⟩) := rfl
    rw [stream_loop_next hit]
    exact ih (i + 1)

/-- C4 (code bug): with live indexing disabled, checkpoint 100 and
snapshot head 110, against a provider returning all logs of any requested
range (one log per block on `[101, 110]`), the claim demands batches
covering `[101, 110]` exactly once followed by termination.  Instead:
after the full batch the filter becomes `[111, 110]`, the clamp rewrites
it to `[110, 110]`, and every further iteration re-fetches and re-emits
block 110's log (first conjunct: the three-iteration trace ends
`…, 110, 110, 110`), and no amount of fuel ever reaches a `break`
(second conjunct) — the stream neither delivers exactly once nor
terminates. -/
theorem C4_overlap_bug :
    trace_blocks (fetch_logs_stream denseProvider false true
        ⟨some 101, some 110⟩ 3).1.emits
      = [101, 102, 103, 104, 105, 106, 107, 108, 109, 110, 110, 110] ∧
    ∀ fuel : Nat, (fetch_logs_stream denseProvider false true
        ⟨some 101, some 110⟩ fuel).2 ≠ .stopped := by
  refine ⟨by decide, ?_⟩
  intro fuel
  cases fuel with
  | zero => decide
  | succ n =>
    have hit : stream_iteration denseProvider false 110 true 0 ⟨some 101, some 110⟩ =
        (.next (some (.ok [⟨some 101⟩, ⟨some 102⟩, ⟨some 103⟩, ⟨some 104⟩, ⟨some 105⟩,
          ⟨some 106⟩, ⟨some 107⟩, ⟨some 108⟩, ⟨some 109⟩, ⟨some 110⟩])) none
          ⟨some 111, some 110⟩, some ⟨some 101, some 110⟩) := by decide
    show (stream_loop denseProvider false 110 true (n + 1) 0 ⟨some 101, some 110⟩).2
      ≠ .stopped
    rw [stream_loop_next hit, dense_running n 1]
    decide


/-- C4 witness: the non-termination conjunct of the bug theorem at a
concrete fuel. -/
theorem C4_overlap_bug_witness :
    (fetch_logs_stream denseProvider false true ⟨some 101, some 110⟩ 4).2
      ≠ .stopped :=
  C4_overlap_bug.2 4

/-! ### Claim C8: ordering of emitted batches.  List-level helpers. -/

theorem pairwise_le_of_all_eq {b : Nat} : ∀ {L : List Nat},
    (∀ x ∈ L, x = b) → L.Pairwise (· ≤ ·)
  | [], _ => List.Pairwise.nil
  | x :: L, h => by
    refine List.Pairwise.cons ?_ (pairwise_le_of_all_eq fun y hy => h y (by simp [hy]))
    intro y hy
    rw [h x (by simp), h y (by simp [hy])]

theorem exists_getLast_of_ne_nil : ∀ {l : List α}, l ≠ [] → ∃ a, l.getLast? = some a
  | [], h => absurd rfl h
  | [a], _ => ⟨a, rfl⟩
  | a :: b :: l, _ => by
    obtain ⟨x, hx⟩ := exists_getLast_of_ne_nil (l := b :: l) (by simp)
    exact ⟨x, by rw [List.getLast?_cons_cons]; exact hx⟩

theorem mem_of_getLast_eq : ∀ {l : List α} {a : α}, l.getLast? = some a → a ∈ l
  | [], a, h => by simp at h
  | [b], a, h => by
    simp only [List.getLast?_singleton, Option.some.injEq] at h
    simp [h]
  | b :: c :: l, a, h => by
    rw [List.getLast?_cons_cons] at h
    exact List.mem_cons_of_mem b (mem_of_getLast_eq h)

theorem pairwise_le_getLast : ∀ {L : List Nat} {x : Nat},
    L.Pairwise (· ≤ ·) → L.getLast? = some x → ∀ y ∈ L, y ≤ x
  | [], x, _, hl, y, hy => by simp at hy
  | [a], x, _, hl, y, hy => by
    simp only [List.getLast?_singleton, Option.some.injEq] at hl
    simp only [List.mem_singleton] at hy
    omega
  | a :: b :: L, x, hp, hl, y, hy => by
    rw [List.getLast?_cons_cons] at hl
    have htail := pairwise_le_getLast (List.Pairwise.sublist (by simp) hp) hl
    cases hy with
    | head =>
      have hab : a ≤ b := (List.pairwise_cons.mp hp).1 b (by simp)
      have := htail b (by simp)
      omega
    | tail _ hy => exact htail y hy

theorem log_blocks_getLast : ∀ (logs : List Log) (ll : Log) (L : Nat),
    (∀ l ∈ logs, ∃ b, l.block_number = some b) → logs.getLast? = some ll →
    ll.block_number = some L → (log_blocks logs).getLast? = some L
  | [], ll, L, _, h, _ => by simp at h
  | [a], ll, L, hall, h, hbn => by
    simp only [List.getLast?_singleton, Option.some.injEq] at h
    subst h
    simp [log_blocks, List.filterMap, hbn]
  | a :: b :: l2, ll, L, hall, h, hbn => by
    rw [List.getLast?_cons_cons] at h
    obtain ⟨ba, hba⟩ := hall a (by simp)
    obtain ⟨bb, hbb⟩ := hall b (by simp)
    have ih := log_blocks_getLast (b :: l2) ll L
      (fun l hl => hall l (by simp [List.mem_cons] at hl ⊢; tauto)) h hbn
    simp only [log_blocks, List.filterMap_cons, hba, hbb] at ih ⊢
    rw [List.getLast?_cons_cons]
    exact ih

/-! Helpers about `blocks_from` / `range_logs`. -/

theorem mem_blocks_from {logsAt : Nat → List Log} : ∀ (n fb : Nat) (l : Log),
    l ∈ blocks_from logsAt fb n → ∃ b, fb ≤ b ∧ b < fb + n ∧ l ∈ logsAt b
  | 0, fb, l, h => by simp [blocks_from] at h
  | n + 1, fb, l, h => by
    simp only [blocks_from, List.mem_append] at h
    cases h with
    | inl h => exact ⟨fb, le_refl fb, by omega, h⟩
    | inr h =>
      obtain ⟨b, h1, h2, h3⟩ := mem_blocks_from n (fb + 1) l h
      exact ⟨b, by omega, by omega, h3⟩

theorem mem_range_logs {logsAt : Nat → List Log} {fb tb : Nat} {l : Log}
    (h : l ∈ range_logs logsAt fb tb) : ∃ b, fb ≤ b ∧ b ≤ tb ∧ l ∈ logsAt b := by
  obtain ⟨b, h1, h2, h3⟩ := mem_blocks_from (tb + 1 - fb) fb l h
  exact ⟨b, h1, by omega, h3⟩

theorem range_logs_all_some {logsAt : Nat → List Log} (HW : WellPlaced logsAt)
    {fb tb : Nat} : ∀ l ∈ range_logs logsAt fb tb, ∃ b, l.block_number = some b := by
  intro l hl
  obtain ⟨b, _, _, h3⟩ := mem_range_logs hl
  exact ⟨b, HW b l h3⟩

theorem log_blocks_range_bound {logsAt : Nat → List Log} (HW : WellPlaced logsAt)
    {fb tb x : Nat} (h : x ∈ log_blocks (range_logs logsAt fb tb)) :
    fb ≤ x ∧ x ≤ tb := by
  obtain ⟨l, hl, hbn⟩ := List.mem_filterMap.mp h
  obtain ⟨b, h1, h2, h3⟩ := mem_range_logs hl
  have := HW b l h3
  rw [this] at hbn
  obtain rfl : b = x := by simpa using hbn
  exact ⟨h1, h2⟩

theorem blocks_from_sorted {logsAt : Nat → List Log} (HW : WellPlaced logsAt) :
    ∀ (n fb : Nat), (log_blocks (blocks_from logsAt fb n)).Pairwise (· ≤ ·)
  | 0, fb => by simp [blocks_from, log_blocks]
  | n + 1, fb => by
    simp only [blocks_from, log_blocks, List.filterMap_append]
    rw [List.pairwise_append]
    refine ⟨?_, by simpa [log_blocks] using blocks_from_sorted HW n (fb + 1), ?_⟩
    · apply pairwise_le_of_all_eq (b := fb)
      intro x hx
      obtain ⟨l, hl, hbn⟩ := List.mem_filterMap.mp hx
      have := HW fb l hl
      rw [this] at hbn
      simpa using hbn.symm
    · intro x hx y hy
      obtain ⟨l, hl, hbn⟩ := List.mem_filterMap.mp hx
      have := HW fb l hl
      rw [this] at hbn
      obtain rfl : fb = x := by simpa using hbn
      obtain ⟨l2, hl2, hbn2⟩ := List.mem_filterMap.mp hy
      obtain ⟨b, hb1, _, hb3⟩ := mem_blocks_from n (fb + 1) l2 hl2
      have := HW b l2 hb3
      rw [this] at hbn2
      obtain rfl : b = y := by simpa using hbn2
      omega

theorem range_logs_sorted {logsAt : Nat → List Log} (HW : WellPlaced logsAt)
    (fb tb : Nat) : (log_blocks (range_logs logsAt fb tb)).Pairwise (· ≤ ·) :=
  blocks_from_sorted HW (tb + 1 - fb) fb

theorem blocks_from_nil_last {logsAt : Nat → List Log} : ∀ (n fb : Nat),
    blocks_from logsAt fb (n + 1) = [] → logsAt (fb + n) = []
  | 0, fb, h => by simpa [blocks_from] using h
  | n + 1, fb, h => by
    rw [blocks_from, List.append_eq_nil] at h
    have := blocks_from_nil_last n (fb + 1) h.2
    rwa [show fb + 1 + n = fb + (n + 1) by omega] at this

theorem range_logs_nil_top {logsAt : Nat → List Log} {fc S : Nat} (hle : fc ≤ S)
    (h : range_logs logsAt fc S = []) : logsAt S = [] := by
  rw [range_logs, show S + 1 - fc = (S - fc) + 1 by omega] at h
  have := blocks_from_nil_last (S - fc) fc h
  rwa [show fc + (S - fc) = S by omega] at this

theorem range_logs_self (logsAt : Nat → List Log) (b : Nat) :
    range_logs logsAt b b = logsAt b := by
  simp [range_logs, blocks_from]


theorem isEmpty_false_of_ne_nil {l : List α} (h : l ≠ []) : l.isEmpty = false := by
  cases l with
  | nil => exact absurd rfl h
  | cons a t => rfl

theorem dispatch_of_concrete {f : Filter} {fb tb : Nat}
    (h1 : f.from_block = some fb) (h2 : f.to_block = some tb) :
    dispatch_of f = some ⟨some (if tb < fb then tb else fb), some tb⟩ := by
  obtain ⟨fo, to2⟩ := f
  simp only at h1 h2
  subst h1; subst h2
  by_cases hc : tb < fb <;> simp [dispatch_of, Filter.set_from_block, hc]

theorem chain_get_logs (logsAt : Nat → List Log) (head : Nat → Nat) (i a b : Nat) :
    (chain_provider logsAt head).get_logs i ⟨some a, some b⟩
      = .success (range_logs logsAt a b) := rfl

theorem chain_head (logsAt : Nat → List Log) (head : Nat → Nat) (i : Nat) :
    (chain_provider logsAt head).get_block_number i = some (head i) := rfl

/-- One A-state step (`to_block = S`) of the ordering invariant, given the
induction hypothesis for the remaining fuel. -/
theorem stream_loop_sorted_stepA (logsAt : Nat → List Log) (head : Nat → Nat) (S : Nat)
    (live : Bool) (HW : WellPlaced logsAt)
    (Hmono : ∀ i j : Nat, i ≤ j → head i ≤ head j) (Hhd : ∀ i, S ≤ head i) (n : Nat)
    (ih : ∀ (i2 : Nat) (f2 : Filter) (m2 : Nat), GoodBound logsAt head S i2 f2 m2 →
      (trace_blocks (stream_loop (chain_provider logsAt head) live S true n
          i2 f2).1.emits).Pairwise (· ≤ ·) ∧
      ∀ x ∈ trace_blocks (stream_loop (chain_provider logsAt head) live S true n
          i2 f2).1.emits, m2 ≤ x)
    (i : Nat) (f : Filter) (m fb : Nat)
    (hfb : f.from_block = some fb) (hto : f.to_block = some S)
    (hA : (fb ≤ S + 1 ∧ m ≤ min fb S) ∨ (logsAt S = [] ∧ fb ≤ head i + 1 ∧ m + 1 ≤ fb)) :
    (trace_blocks (stream_loop (chain_provider logsAt head) live S true (n + 1)
        i f).1.emits).Pairwise (· ≤ ·) ∧
    ∀ x ∈ trace_blocks (stream_loop (chain_provider logsAt head) live S true (n + 1)
        i f).1.emits, m ≤ x := by
  have hdf := dispatch_of_concrete hfb hto
  have hfcS : (if S < fb then S else fb) ≤ S := by
    by_cases hc : S < fb <;> simp [hc] <;> omega
  have hmhd : m ≤ head i := by
    have := Hhd i
    rcases hA with ⟨h1, h2⟩ | ⟨h1, h2, h3⟩
    · have := min_le_right fb S; omega
    · omega
  by_cases hbe : range_logs logsAt (if S < fb then S else fb) S = []
  · -- empty fetch over [fc, S]; block S is therefore empty
    have hSnil : logsAt S = [] := range_logs_nil_top hfcS hbe
    cases live with
    | false =>
      have hit : stream_iteration (chain_provider logsAt head) false S true i f =
          (.stop none, some ⟨some (if S < fb then S else fb), some S⟩) := by
        simp [stream_iteration, hdf, stream_step, chain_get_logs, hbe]
      rw [stream_loop_stop hit]
      exact ⟨by simp [trace_blocks], by simp [trace_blocks]⟩
    | true =>
      have hit : stream_iteration (chain_provider logsAt head) true S true i f =
          (.next none (some 500) ⟨some (head i), some (head i)⟩,
           some ⟨some (if S < fb then S else fb), some S⟩) := by
        simp [stream_iteration, hdf, stream_step, chain_get_logs, hbe, chain_head,
          Filter.set_from_block, Filter.set_to_block]
      rw [stream_loop_next hit]
      have hnext : GoodBound logsAt head S (i + 1) ⟨some (head i), some (head i)⟩ m :=
        ⟨head i, rfl, Or.inr (Or.inr ⟨rfl, Hhd i, Hmono i (i + 1) (by omega), hSnil, hmhd⟩)⟩
      obtain ⟨ihs, ihb⟩ := ih (i + 1) _ m hnext
      constructor
      · simpa [trace_blocks] using ihs
      · simpa [trace_blocks] using ihb
  · -- non-empty batch: its last log sits at some block b with fc ≤ b ≤ S
    obtain ⟨ll, hll⟩ := exists_getLast_of_ne_nil hbe
    obtain ⟨b, hb1, hb2, hb3⟩ := mem_range_logs (mem_of_getLast_eq hll)
    have hbn : ll.block_number = some b := HW b ll hb3
    have hne := isEmpty_false_of_ne_nil hbe
    have hmfc : m ≤ (if S < fb then S else fb) := by
      rcases hA with ⟨h1, h2⟩ | ⟨h1, h2, h3⟩
      · have h3 := min_le_left fb S
        have h4 := min_le_right fb S
        by_cases hc : S < fb <;> simp [hc] <;> omega
      · by_cases hc : S < fb
        · exfalso
          rw [if_pos hc, range_logs_self, h1] at hbe
          exact hbe rfl
        · rw [if_neg hc]; omega
    have hit : stream_iteration (chain_provider logsAt head) live S true i f =
        (.next (some (.ok (range_logs logsAt (if S < fb then S else fb) S))) none
          ⟨some (b + 1), some S⟩,
         some ⟨some (if S < fb then S else fb), some S⟩) := by
      simp [stream_iteration, hdf, stream_step, chain_get_logs, hne, hll, hbn,
        Filter.set_from_block, Filter.set_to_block]
    rw [stream_loop_next hit]
    have hnext : GoodBound logsAt head S (i + 1) ⟨some (b + 1), some S⟩ b :=
      ⟨b + 1, rfl, Or.inl ⟨rfl, by omega, Nat.le_min.mpr ⟨by omega, hb2⟩⟩⟩
    obtain ⟨ihs, ihb⟩ := ih (i + 1) _ b hnext
    have hbatch_le : ∀ x ∈ log_blocks (range_logs logsAt (if S < fb then S else fb) S),
        x ≤ b :=
      pairwise_le_getLast (range_logs_sorted HW _ _)
        (log_blocks_getLast _ ll b (range_logs_all_some HW) hll hbn)
    have hbatch_ge : ∀ x ∈ log_blocks (range_logs logsAt (if S < fb then S else fb) S),
        (if S < fb then S else fb) ≤ x :=
      fun x hx => (log_blocks_range_bound HW hx).1
    constructor
    · simp only [trace_blocks, Option.toList, List.singleton_append, List.nil_append]
      rw [List.pairwise_append]
      refine ⟨range_logs_sorted HW _ _, ihs, ?_⟩
      intro x hx y hy
      exact le_trans (hbatch_le x hx) (ihb y hy)
    · simp only [trace_blocks, Option.toList, List.singleton_append, List.nil_append]
      intro x hx
      rw [List.mem_append] at hx
      cases hx with
      | inl hx => exact le_trans hmfc (hbatch_ge x hx)
      | inr hx => exact le_trans hmfc (le_trans hb1 (ihb x hx))


/-- One C-state step (live polling filter `[fb, fb]`) of the ordering
invariant, given the induction hypothesis for the remaining fuel. -/
theorem stream_loop_sorted_stepC (logsAt : Nat → List Log) (head : Nat → Nat) (S : Nat)
    (live : Bool) (HW : WellPlaced logsAt)
    (Hmono : ∀ i j : Nat, i ≤ j → head i ≤ head j) (Hhd : ∀ i, S ≤ head i) (n : Nat)
    (ih : ∀ (i2 : Nat) (f2 : Filter) (m2 : Nat), GoodBound logsAt head S i2 f2 m2 →
      (trace_blocks (stream_loop (chain_provider logsAt head) live S true n
          i2 f2).1.emits).Pairwise (· ≤ ·) ∧
      ∀ x ∈ trace_blocks (stream_loop (chain_provider logsAt head) live S true n
          i2 f2).1.emits, m2 ≤ x)
    (i : Nat) (f : Filter) (m fb : Nat)
    (hfb : f.from_block = some fb) (hto : f.to_block = some fb)
    (hSfb : S ≤ fb) (hfh : fb ≤ head i) (hSnil : logsAt S = []) (hm : m ≤ fb) :
    (trace_blocks (stream_loop (chain_provider logsAt head) live S true (n + 1)
        i f).1.emits).Pairwise (· ≤ ·) ∧
    ∀ x ∈ trace_blocks (stream_loop (chain_provider logsAt head) live S true (n + 1)
        i f).1.emits, m ≤ x := by
  have hdf : dispatch_of f = some ⟨some fb, some fb⟩ := by
    have := dispatch_of_concrete hfb hto
    simpa using this
  by_cases hbe : range_logs logsAt fb fb = []
  · cases live with
    | false =>
      have hit : stream_iteration (chain_provider logsAt head) false S true i f =
          (.stop none, some ⟨some fb, some fb⟩) := by
        simp [stream_iteration, hdf, stream_step, chain_get_logs, hbe]
      rw [stream_loop_stop hit]
      exact ⟨by simp [trace_blocks], by simp [trace_blocks]⟩
    | true =>
      have hit : stream_iteration (chain_provider logsAt head) true S true i f =
          (.next none (some 500) ⟨some (head i), some (head i)⟩,
           some ⟨some fb, some fb⟩) := by
        simp [stream_iteration, hdf, stream_step, chain_get_logs, hbe, chain_head,
          Filter.set_from_block, Filter.set_to_block]
      rw [stream_loop_next hit]
      have hnext : GoodBound logsAt head S (i + 1) ⟨some (head i), some (head i)⟩ m :=
        ⟨head i, rfl, Or.inr (Or.inr ⟨rfl, Hhd i, Hmono i (i + 1) (by omega), hSnil,
          by omega⟩)⟩
      obtain ⟨ihs, ihb⟩ := ih (i + 1) _ m hnext
      exact ⟨by simpa [trace_blocks] using ihs, by simpa [trace_blocks] using ihb⟩
  · obtain ⟨ll, hll⟩ := exists_getLast_of_ne_nil hbe
    obtain ⟨b, hb1, hb2, hb3⟩ := mem_range_logs (mem_of_getLast_eq hll)
    have hbfb : b = fb := by omega
    rw [hbfb] at hb3
    have hbn : ll.block_number = some fb := HW fb ll hb3
    have hne := isEmpty_false_of_ne_nil hbe
    have hit : stream_iteration (chain_provider logsAt head) live S true i f =
        (.next (some (.ok (range_logs logsAt fb fb))) none ⟨some (fb + 1), some S⟩,
         some ⟨some fb, some fb⟩) := by
      simp [stream_iteration, hdf, stream_step, chain_get_logs, hne, hll, hbn,
        Filter.set_from_block, Filter.set_to_block]
    rw [stream_loop_next hit]
    have hnext : GoodBound logsAt head S (i + 1) ⟨some (fb + 1), some S⟩ fb :=
      ⟨fb + 1, rfl, Or.inr (Or.inl ⟨rfl, hSnil,
        by have := Hmono i (i + 1) (by omega); omega, by omega⟩)⟩
    obtain ⟨ihs, ihb⟩ := ih (i + 1) _ fb hnext
    have hbatch_eq : ∀ x ∈ log_blocks (range_logs logsAt fb fb), x = fb := by
      intro x hx
      have := log_blocks_range_bound HW hx
      omega
    constructor
    · simp only [trace_blocks, Option.toList, List.singleton_append, List.nil_append]
      rw [List.pairwise_append]
      refine ⟨range_logs_sorted HW _ _, ihs, ?_⟩
      intro x hx y hy
      rw [hbatch_eq x hx]
      exact ihb y hy
    · simp only [trace_blocks, Option.toList, List.singleton_append, List.nil_append]
      intro x hx
      rw [List.mem_append] at hx
      cases hx with
      | inl hx => rw [hbatch_eq x hx]; omega
      | inr hx => exact le_trans (by omega) (ihb x hx)

/-- The ordering invariant holds along the whole loop: from any `GoodBound`
state, the flattened block trace of the remaining run is non-decreasing and
bounded below by `m`. -/
theorem stream_loop_sorted (logsAt : Nat → List Log) (head : Nat → Nat) (S : Nat)
    (live : Bool) (HW : WellPlaced logsAt)
    (Hmono : ∀ i j : Nat, i ≤ j → head i ≤ head j) (Hhd : ∀ i, S ≤ head i) :
    ∀ (fuel i : Nat) (f : Filter) (m : Nat), GoodBound logsAt head S i f m →
    (trace_blocks (stream_loop (chain_provider logsAt head) live S true fuel
        i f).1.emits).Pairwise (· ≤ ·) ∧
    ∀ x ∈ trace_blocks (stream_loop (chain_provider logsAt head) live S true fuel
        i f).1.emits, m ≤ x := by
  intro fuel
  induction fuel with
  | zero =>
    intro i f m _
    exact ⟨by simp [stream_loop, trace_blocks], by simp [stream_loop, trace_blocks]⟩
  | succ n ih =>
    intro i f m hg
    obtain ⟨fb, hfb, hcase⟩ := hg
    rcases hcase with ⟨hto, hle, hm⟩ | ⟨hto, hSnil, hhead, hm⟩ | ⟨hto, hSfb, hfh, hSnil, hm⟩
    · exact stream_loop_sorted_stepA logsAt head S live HW Hmono Hhd n ih i f m fb
        hfb hto (Or.inl ⟨hle, hm⟩)
    · exact stream_loop_sorted_stepA logsAt head S live HW Hmono Hhd n ih i f m fb
        hfb hto (Or.inr ⟨hSnil, hhead, hm⟩)
    · exact stream_loop_sorted_stepC logsAt head S live HW Hmono Hhd n ih i f m fb
        hfb hto hSfb hfh hSnil hm

/-- C8: against a provider that behaves like a reorg-free EVM node — a
fixed per-block log assignment whose logs carry their block number,
responses listing the requested range's logs in ascending block order,
and a non-decreasing chain head never behind the snapshot — a stream
started on `[f0, S]` with `f0 ≤ S + 1` (the `[checkpoint + 1, head]`
start) emits batches in non-decreasing block-number order: the flattened
block trace is `Pairwise (· ≤ ·)`, so every later batch's blocks are `≥`
every earlier batch's, in backfill and across the transition into live
mode alike. -/
theorem C8_ordering :
    ∀ (logsAt : Nat → List Log) (head : Nat → Nat) (S f0 : Nat) (live : Bool)
      (fuel : Nat),
    WellPlaced logsAt → (∀ i j : Nat, i ≤ j → head i ≤ head j) →
    (∀ i, S ≤ head i) → f0 ≤ S + 1 →
    (trace_blocks (fetch_logs_stream (chain_provider logsAt head) live true
        ⟨some f0, some S⟩ fuel).1.emits).Pairwise (· ≤ ·) := by
  intro logsAt head S f0 live fuel HW Hmono Hhd hf0
  show (trace_blocks (stream_loop (chain_provider logsAt head) live S true fuel
      0 ⟨some f0, some S⟩).1.emits).Pairwise (· ≤ ·)
  exact (stream_loop_sorted logsAt head S live HW Hmono Hhd fuel 0
    ⟨some f0, some S⟩ 0 ⟨f0, rfl, Or.inl ⟨rfl, hf0, by omega⟩⟩).1

/-- C8 witness: a sparse chain (logs at blocks 105 and 150), snapshot 110,
head pinned at 150, live mode: the run backfills block 105, goes live at
the head, emits block 150, collapses back to `[110, 110]`, and the trace
stays non-decreasing. -/
theorem C8_ordering_witness :
    (trace_blocks (fetch_logs_stream (chain_provider sparseLogsAt (fun _ => 150)) true
        true ⟨some 101, some 110⟩ 6).1.emits).Pairwise (· ≤ ·) := by
  refine C8_ordering sparseLogsAt (fun _ => 150) 110 101 true 6 ?_ ?_ ?_ ?_
  · intro b l hl
    unfold sparseLogsAt at hl
    split at hl
    next h =>
      simp only [List.mem_singleton] at hl
      subst hl
      simp [h]
    next h =>
      split at hl
      next h2 =>
        simp only [List.mem_singleton] at hl
        subst hl
        simp [h2]
      next h2 => simp at hl
  · intro i j h
    exact le_refl 150
  · intro i
    show (110 : Nat) ≤ 150
    omega
  · omega

end Rindexer
